import Mathlib

/-!
Verification of the core of `dynamic-adaptor-demo` (src/main.go):
a shallow embedding of the statistics counter tree (`Statistic.Inc`,
`Statistic.Json`) and of the rule compiler / validator engine
(`generateValidFunc` and its helpers), together with theorems settling
the specification claims.

Modelling conventions:
* Go `interface{}` values stored in the statistics tree are only ever
  `int` leaves or `map[string]interface{}` interior nodes, so the tree is
  embedded as an association list whose entries are either leaves or
  interior nodes (`StatNode`).  Go map semantics (replace on existing key,
  add otherwise) are modelled by `setLeaf`/`setNode`, which replace the
  first binding of a key in place.
* Go `int` leaf counters are modelled as unbounded `Int`; no claim
  involves values near the 2^63 wrap-around boundary.
* `sync.Mutex` lock/unlock and `log` calls have no effect on the data
  and are not modelled.
-/

set_option autoImplicit false

namespace DynAdaptor

/-- The statistics tree: models the `map[string]interface{}` stored in
`Statistic.data` (src/main.go).  Entries are either integer leaf counters
(`leafE`) or interior nodes (`nodeE`); these are the only two kinds of
value that `Statistic.Inc` ever stores. -/
inductive StatNode where
  | nil : StatNode
  | leafE : String → Int → StatNode → StatNode
  | nodeE : String → StatNode → StatNode → StatNode
deriving DecidableEq

/-- The result of a Go map lookup `i, ok := cur[part]` in the statistics
tree, together with the two possible dynamic types of `i`. -/
inductive LookupRes where
  | missing : LookupRes
  | leafv : Int → LookupRes
  | nodev : StatNode → LookupRes
deriving DecidableEq

/-- Go map read `cur[key]`: first binding of `key`, if any. -/
def lookupSN : StatNode → String → LookupRes
  | .nil, _ => .missing
  | .leafE k v r, key => if key = k then .leafv v else lookupSN r key
  | .nodeE k c r, key => if key = k then .nodev c else lookupSN r key

/-- Go map write `cur[key] = v` with an `int` value: replaces the first
binding of `key` in place, or appends a new binding. -/
def setLeaf : StatNode → String → Int → StatNode
  | .nil, key, v => .leafE key v .nil
  | .leafE k w r, key, v => if key = k then .leafE k v r else .leafE k w (setLeaf r key v)
  | .nodeE k c r, key, v => if key = k then .leafE k v r else .nodeE k c (setLeaf r key v)

/-- Go map write `cur[key] = next` with a `map[string]interface{}` value:
replaces the first binding of `key` in place, or appends a new binding. -/
def setNode : StatNode → String → StatNode → StatNode
  | .nil, key, c => .nodeE key c .nil
  | .leafE k w r, key, c => if key = k then .nodeE k c r else .leafE k w (setNode r key c)
  | .nodeE k c0 r, key, c => if key = k then .nodeE k c r else .nodeE k c0 (setNode r key c)

/-- Models `strings.Split(path, ".")`: splits at every `'.'`, keeping
empty segments; always returns at least one segment. -/
def splitAux : List Char → List Char → List String
  | [], acc => [String.mk acc.reverse]
  | c :: cs, acc =>
      if c = '.' then String.mk acc.reverse :: splitAux cs []
      else splitAux cs (c :: acc)

/-- Function `strings.Split(path, ".")` as used by `Statistic.Inc`. -/
def splitDots (s : String) : List String := splitAux s.toList []

/-- The traversal loop of `Statistic.Inc` (src/main.go lines 385-432).
`cur` is the node the loop is looking at, `passed` the accumulated
`passedParts`, `pathParts` the interior segments still to walk, and
`valueName` the final (leaf) segment.  Returns the updated tree together
with the error (`none` = nil error).  In Go the maps are mutated in
place; a key that is created for an absent interior segment keeps its
freshly created empty node even if a later step fails, which this
functional version reproduces by re-inserting the recursively updated
child under the same key. -/
def incAux (cur : StatNode) (passed : List String) (pathParts : List String)
    (valueName : String) (delta : Int) : StatNode × Option String :=
  match pathParts with
  | [] =>
      match lookupSN cur valueName with
      | .missing => (setLeaf cur valueName delta, none)
      | .leafv v => (setLeaf cur valueName (v + delta), none)
      | .nodev _ => (cur, some "not value which you want to inc")
  | part :: rest =>
      match lookupSN cur part with
      | .missing =>
          let r := incAux .nil (passed ++ [part]) rest valueName delta
          (setNode cur part r.1, r.2)
      | .nodev sub =>
          let r := incAux sub (passed ++ [part]) rest valueName delta
          (setNode cur part r.1, r.2)
      | .leafv _ =>
          (cur, some (String.intercalate "." (passed ++ [part]) ++ " is a value"))

/-- Method `Statistic.Inc(path, delta)`: splits the path on dots, walks the
interior segments and updates the leaf named by the last segment.
The nil-map initialisation `s.data = map[string]interface{}{}` is the
identity here because `StatNode.nil` already models the empty map. -/
def inc (data : StatNode) (path : String) (delta : Int) : StatNode × Option String :=
  let parts := splitDots path
  incAux data [] parts.dropLast (parts.getLastD "") delta

/-- Insert a leaf entry into a key-sorted node, keeping it sorted. -/
def insLeaf (key : String) (v : Int) : StatNode → StatNode
  | .nil => .leafE key v .nil
  | .leafE k w r => if key < k then .leafE key v (.leafE k w r) else .leafE k w (insLeaf key v r)
  | .nodeE k c r => if key < k then .leafE key v (.nodeE k c r) else .nodeE k c (insLeaf key v r)

/-- Insert an interior entry into a key-sorted node, keeping it sorted. -/
def insNode (key : String) (child : StatNode) : StatNode → StatNode
  | .nil => .nodeE key child .nil
  | .leafE k w r => if key < k then .nodeE key child (.leafE k w r) else .leafE k w (insNode key child r)
  | .nodeE k c r => if key < k then .nodeE key child (.nodeE k c r) else .nodeE k c (insNode key child r)

/-- Recursively sort every level of the tree by key, the order in which
the Go `encoding/json` package marshals map keys. -/
def sortSN : StatNode → StatNode
  | .nil => .nil
  | .leafE k v r => insLeaf k v (sortSN r)
  | .nodeE k c r => insNode k (sortSN c) (sortSN r)

/-- The comma-joined members of a JSON object for one (already sorted)
node.  Statistics keys are plain path segments, so string escaping
reduces to surrounding quotes. -/
def jsonBody : StatNode → String
  | .nil => ""
  | .leafE k v r =>
      "\"" ++ k ++ "\":" ++ toString v ++ (if r = .nil then "" else ",") ++ jsonBody r
  | .nodeE k c r =>
      "\"" ++ k ++ "\":" ++ "\x7b" ++ jsonBody c ++ "\x7d" ++ (if r = .nil then "" else ",") ++ jsonBody r

/-- Method `Statistic.Json()`: `json.Marshal` of the tree (keys sorted), for a
tree that has been initialised by at least one `Inc` call. -/
def jsonSN (n : StatNode) : String := "\x7b" ++ jsonBody (sortSN n) ++ "\x7d"

/-- Run a sequence of `Inc` calls (path, delta), discarding the per-call
errors, as the serving handlers do (they log and continue). -/
def runIncs (data : StatNode) (ops : List (String × Int)) : StatNode :=
  ops.foldl (fun d op => (inc d op.1 op.2).1) data

/-- A traversal by `Statistic.Inc` along `pathParts` ending at
`valueName` hits a path conflict when it reaches an interior segment
already bound to a leaf integer, or a final segment already bound to an
interior node ("a segment already bound inconsistently"). -/
def conflictB : StatNode → List String → String → Bool
  | cur, [], valueName =>
      match lookupSN cur valueName with
      | .nodev _ => true
      | _ => false
  | cur, part :: rest, valueName =>
      match lookupSN cur part with
      | .leafv _ => true
      | .nodev sub => conflictB sub rest valueName
      | .missing => false

theorem conflictB_nil (parts : List String) (valueName : String) :
    conflictB .nil parts valueName = false := by
  cases parts <;> simp [conflictB, lookupSN]

theorem setNode_lookup_self (cur : StatNode) (key : String) (sub : StatNode)
    (h : lookupSN cur key = .nodev sub) : setNode cur key sub = cur := by
  induction cur with
  | nil => simp [lookupSN] at h
  | leafE k w r ih =>
      by_cases hk : key = k
      · simp [lookupSN, hk] at h
      · simp [lookupSN, hk] at h
        simp [setNode, hk, ih h]
  | nodeE k c r ihc ihr =>
      by_cases hk : key = k
      · simp [lookupSN, hk] at h
        simp [setNode, hk, h]
      · simp [lookupSN, hk] at h
        simp [setNode, hk, ihr h]

/-- Traversal of `Inc` errors exactly on a path conflict, and an erroring
call leaves the node untouched. -/
theorem incAux_conflict (pathParts : List String) (cur : StatNode) (passed : List String)
    (valueName : String) (delta : Int) :
    (incAux cur passed pathParts valueName delta).2.isSome = conflictB cur pathParts valueName ∧
    ((incAux cur passed pathParts valueName delta).2.isSome = true →
      (incAux cur passed pathParts valueName delta).1 = cur) := by
  induction pathParts generalizing cur passed with
  | nil =>
      cases h : lookupSN cur valueName <;>
        simp [incAux, conflictB, h]
  | cons part rest ih =>
      cases h : lookupSN cur part with
      | missing =>
          have hsub := ih StatNode.nil (passed ++ [part])
          have hnone : (incAux .nil (passed ++ [part]) rest valueName delta).2.isSome = false := by
            rw [hsub.1, conflictB_nil]
          simp [incAux, conflictB, h, hnone]
      | leafv v =>
          simp [incAux, conflictB, h]
      | nodev sub =>
          have hsub := ih sub (passed ++ [part])
          constructor
          · simpa [incAux, conflictB, h] using hsub.1
          · intro herr
            simp only [incAux, h] at herr ⊢
            have h1 := hsub.2 herr
            rw [h1, setNode_lookup_self cur part sub h]

/-- C2: `Inc(path, delta)` returns a path-conflict error exactly when the
traversal encounters a segment already bound inconsistently (an interior
segment bound to a leaf integer, or the final segment bound to an
interior node), and in that case the tree is returned exactly as it was
before the call — no partial state is observable. -/
theorem inc_conflict_error_and_unchanged (data : StatNode) (path : String) (delta : Int) :
    ((inc data path delta).2.isSome =
      conflictB data (splitDots path).dropLast ((splitDots path).getLastD "")) ∧
    ((inc data path delta).2.isSome = true → (inc data path delta).1 = data) := by
  exact incAux_conflict (splitDots path).dropLast data [] ((splitDots path).getLastD "") delta

/-- Witness for C2: with the tree `{"a": {"b": 1}}`, the call
`Inc("a.b.c", 1)` treats the leaf `a.b` as interior, errors, and leaves
the tree exactly as it was. -/
theorem inc_conflict_error_and_unchanged_witness :
    (inc (.nodeE "a" (.leafE "b" 1 .nil) .nil) "a.b.c" 1).1 =
      .nodeE "a" (.leafE "b" 1 .nil) .nil :=
  (inc_conflict_error_and_unchanged (.nodeE "a" (.leafE "b" 1 .nil) .nil) "a.b.c" 1).2
    (by decide)

/-- Boolean membership of a key in a key list. -/
def memB (k : String) : List String → Bool
  | [] => false
  | x :: xs => (k == x) || memB k xs

/-- The keys bound at the top level of a node. -/
def keysSN : StatNode → List String
  | .nil => []
  | .leafE k _ r => k :: keysSN r
  | .nodeE k _ r => k :: keysSN r

/-- Well-formedness of the association-list embedding: no key is bound
twice in the same node, recursively.  Trees built by `Inc` from the
empty tree always satisfy this (Go maps bind each key once). -/
def nodupSN : StatNode → Bool
  | .nil => true
  | .leafE k _ r => !memB k (keysSN r) && nodupSN r
  | .nodeE k c r => !memB k (keysSN r) && nodupSN c && nodupSN r

/-- Predicate `kindOk old new` holds when every key bound in `old` is still bound
in `new` with the same kind: a leaf stays a leaf and an interior node
stays an interior node whose child again satisfies `kindOk`.  Keys
absent in `old` are unconstrained (uninitialized → leaf/interior). -/
def kindOk : StatNode → StatNode → Bool
  | .nil, _ => true
  | .leafE k _ r, new =>
      (match lookupSN new k with
        | .leafv _ => true
        | _ => false) && kindOk r new
  | .nodeE k c r, new =>
      (match lookupSN new k with
        | .nodev c2 => kindOk c c2
        | _ => false) && kindOk r new

/-- Kind preservation at the level of a single lookup result. -/
def resOk : LookupRes → LookupRes → Bool
  | .missing, _ => true
  | .leafv _, .leafv _ => true
  | .nodev s, .nodev t => kindOk s t
  | _, _ => false

theorem lookupSN_missing_iff (n : StatNode) (k : String) :
    lookupSN n k = .missing ↔ memB k (keysSN n) = false := by
  induction n with
  | nil => simp [lookupSN, keysSN, memB]
  | leafE k' v r ih =>
      by_cases hk : k = k' <;> simp [lookupSN, keysSN, memB, hk, ih]
  | nodeE k' c r ihc ihr =>
      by_cases hk : k = k' <;> simp [lookupSN, keysSN, memB, hk, ihr]

theorem lookupSN_setLeaf_self (n : StatNode) (key : String) (v : Int) :
    lookupSN (setLeaf n key v) key = .leafv v := by
  induction n with
  | nil => simp [setLeaf, lookupSN]
  | leafE k w r ih => by_cases hk : key = k <;> simp [setLeaf, lookupSN, hk, ih]
  | nodeE k c r ihc ihr => by_cases hk : key = k <;> simp [setLeaf, lookupSN, hk, ihr]

theorem lookupSN_setLeaf_ne (n : StatNode) (key : String) (v : Int) (k' : String)
    (h : k' ≠ key) : lookupSN (setLeaf n key v) k' = lookupSN n k' := by
  induction n with
  | nil => simp [setLeaf, lookupSN, h]
  | leafE k w r ih =>
      by_cases hk : key = k
      · subst hk; simp [setLeaf, lookupSN, h]
      · by_cases h' : k' = k <;> simp [setLeaf, lookupSN, hk, h', ih]
  | nodeE k c r ihc ihr =>
      by_cases hk : key = k
      · subst hk; simp [setLeaf, lookupSN, h]
      · by_cases h' : k' = k <;> simp [setLeaf, lookupSN, hk, h', ihr]

theorem lookupSN_setNode_self (n : StatNode) (key : String) (c : StatNode) :
    lookupSN (setNode n key c) key = .nodev c := by
  induction n with
  | nil => simp [setNode, lookupSN]
  | leafE k w r ih => by_cases hk : key = k <;> simp [setNode, lookupSN, hk, ih]
  | nodeE k c0 r ihc ihr => by_cases hk : key = k <;> simp [setNode, lookupSN, hk, ihr]

theorem lookupSN_setNode_ne (n : StatNode) (key : String) (c : StatNode) (k' : String)
    (h : k' ≠ key) : lookupSN (setNode n key c) k' = lookupSN n k' := by
  induction n with
  | nil => simp [setNode, lookupSN, h]
  | leafE k w r ih =>
      by_cases hk : key = k
      · subst hk; simp [setNode, lookupSN, h]
      · by_cases h' : k' = k <;> simp [setNode, lookupSN, hk, h', ih]
  | nodeE k c0 r ihc ihr =>
      by_cases hk : key = k
      · subst hk; simp [setNode, lookupSN, h]
      · by_cases h' : k' = k <;> simp [setNode, lookupSN, hk, h', ihr]

theorem memB_keys_setLeaf (n : StatNode) (key : String) (v : Int) (k' : String) :
    memB k' (keysSN (setLeaf n key v)) = (memB k' (keysSN n) || (k' == key)) := by
  induction n with
  | nil => simp [setLeaf, keysSN, memB, Bool.or_comm]
  | leafE k w r ih =>
      by_cases hk : key = k
      · subst hk
        by_cases h' : k' = key <;> simp [setLeaf, keysSN, memB, h']
      · by_cases h' : k' = k <;>
          simp [setLeaf, keysSN, memB, hk, h', ih, Bool.or_assoc]
  | nodeE k c r ihc ihr =>
      by_cases hk : key = k
      · subst hk
        by_cases h' : k' = key <;> simp [setLeaf, keysSN, memB, h']
      · by_cases h' : k' = k <;>
          simp [setLeaf, keysSN, memB, hk, h', ihr, Bool.or_assoc]

theorem memB_keys_setNode (n : StatNode) (key : String) (c : StatNode) (k' : String) :
    memB k' (keysSN (setNode n key c)) = (memB k' (keysSN n) || (k' == key)) := by
  induction n with
  | nil => simp [setNode, keysSN, memB, Bool.or_comm]
  | leafE k w r ih =>
      by_cases hk : key = k
      · subst hk
        by_cases h' : k' = key <;> simp [setNode, keysSN, memB, h']
      · by_cases h' : k' = k <;>
          simp [setNode, keysSN, memB, hk, h', ih, Bool.or_assoc]
  | nodeE k c0 r ihc ihr =>
      by_cases hk : key = k
      · subst hk
        by_cases h' : k' = key <;> simp [setNode, keysSN, memB, h']
      · by_cases h' : k' = k <;>
          simp [setNode, keysSN, memB, hk, h', ihr, Bool.or_assoc]

theorem nodupSN_setLeaf (n : StatNode) (key : String) (v : Int)
    (h : nodupSN n = true) : nodupSN (setLeaf n key v) = true := by
  induction n with
  | nil => simp [setLeaf, nodupSN, keysSN, memB]
  | leafE k w r ih =>
      simp only [nodupSN, Bool.and_eq_true, Bool.not_eq_true'] at h
      by_cases hk : key = k
      · subst hk; simp [setLeaf, nodupSN, keysSN, h.1, h.2]
      · have hk' : ¬k = key := fun he => hk he.symm
        simp [setLeaf, nodupSN, hk, memB_keys_setLeaf, h.1, ih h.2,
          beq_iff_eq, hk']
  | nodeE k c r ihc ihr =>
      simp only [nodupSN, Bool.and_eq_true, Bool.not_eq_true'] at h
      by_cases hk : key = k
      · subst hk; simp [setLeaf, nodupSN, keysSN, h.1.1, h.2]
      · have hk' : ¬k = key := fun he => hk he.symm
        simp [setLeaf, nodupSN, hk, memB_keys_setLeaf, h.1.1, h.1.2, ihr h.2,
          beq_iff_eq, hk']

theorem nodupSN_setNode (n : StatNode) (key : String) (c : StatNode)
    (h : nodupSN n = true) (hc : nodupSN c = true) :
    nodupSN (setNode n key c) = true := by
  induction n with
  | nil => simp [setNode, nodupSN, keysSN, memB, hc]
  | leafE k w r ih =>
      simp only [nodupSN, Bool.and_eq_true, Bool.not_eq_true'] at h
      by_cases hk : key = k
      · subst hk; simp [setNode, nodupSN, keysSN, h.1, h.2, hc]
      · have hk' : ¬k = key := fun he => hk he.symm
        simp [setNode, nodupSN, hk, memB_keys_setNode, h.1, ih h.2,
          beq_iff_eq, hk']
  | nodeE k c0 r ihc ihr =>
      simp only [nodupSN, Bool.and_eq_true, Bool.not_eq_true'] at h
      by_cases hk : key = k
      · subst hk; simp [setNode, nodupSN, keysSN, h.1.1, h.2, hc]
      · have hk' : ¬k = key := fun he => hk he.symm
        simp [setNode, nodupSN, hk, memB_keys_setNode, h.1.1, h.1.2, ihr h.2,
          beq_iff_eq, hk']

theorem nodupSN_lookup (n : StatNode) (k : String) (s : StatNode)
    (hn : nodupSN n = true) (h : lookupSN n k = .nodev s) : nodupSN s = true := by
  induction n with
  | nil => simp [lookupSN] at h
  | leafE k' v r ih =>
      simp only [nodupSN, Bool.and_eq_true] at hn
      by_cases hk : k = k'
      · simp [lookupSN, hk] at h
      · simp [lookupSN, hk] at h
        exact ih hn.2 h
  | nodeE k' c r ihc ihr =>
      simp only [nodupSN, Bool.and_eq_true] at hn
      by_cases hk : k = k'
      · simp [lookupSN, hk] at h
        subst h; exact hn.1.2
      · simp [lookupSN, hk] at h
        exact ihr hn.2 h
theorem kindOk_ext (a b b' : StatNode)
    (h : ∀ k, memB k (keysSN a) = true → lookupSN b k = lookupSN b' k) :
    kindOk a b = kindOk a b' := by
  induction a with
  | nil => rfl
  | leafE k v r ih =>
      have hk : lookupSN b k = lookupSN b' k := h k (by simp [keysSN, memB])
      have hr : kindOk r b = kindOk r b' := by
        refine ih (fun k' hk' => h k' ?_)
        simp [keysSN, memB, hk']
      simp only [kindOk, hk, hr]
  | nodeE k c r ihc ihr =>
      have hk : lookupSN b k = lookupSN b' k := h k (by simp [keysSN, memB])
      have hr : kindOk r b = kindOk r b' := by
        refine ihr (fun k' hk' => h k' ?_)
        simp [keysSN, memB, hk']
      simp only [kindOk, hk, hr]

theorem kindOk_refl (a : StatNode) (h : nodupSN a = true) : kindOk a a = true := by
  induction a with
  | nil => rfl
  | leafE k v r ih =>
      simp only [nodupSN, Bool.and_eq_true, Bool.not_eq_true'] at h
      have hr : kindOk r (StatNode.leafE k v r) = kindOk r r := by
        refine kindOk_ext r _ r (fun k' hk' => ?_)
        have hne : ¬k' = k := by
          intro he; rw [he, h.1] at hk'; simp at hk'
        simp [lookupSN, hne]
      simp [kindOk, lookupSN, hr, ih h.2]
  | nodeE k c r ihc ihr =>
      simp only [nodupSN, Bool.and_eq_true, Bool.not_eq_true'] at h
      have hr : kindOk r (StatNode.nodeE k c r) = kindOk r r := by
        refine kindOk_ext r _ r (fun k' hk' => ?_)
        have hne : ¬k' = k := by
          intro he; rw [he, h.1.1] at hk'; simp at hk'
        simp [lookupSN, hne]
      simp [kindOk, lookupSN, hr, ihc h.1.2, ihr h.2]

theorem kindOk_lookup (a b : StatNode) (h : kindOk a b = true) (k : String) :
    resOk (lookupSN a k) (lookupSN b k) = true := by
  induction a with
  | nil => simp [lookupSN, resOk]
  | leafE k' v r ih =>
      simp only [kindOk, Bool.and_eq_true] at h
      by_cases hk : k = k'
      · subst hk
        simp only [lookupSN, if_pos rfl]
        cases hb : lookupSN b k <;> rw [hb] at h <;> simp [resOk] at h ⊢
      · simp only [lookupSN, if_neg hk]
        exact ih h.2
  | nodeE k' c r ihc ihr =>
      simp only [kindOk, Bool.and_eq_true] at h
      by_cases hk : k = k'
      · subst hk
        simp only [lookupSN, if_pos rfl]
        cases hb : lookupSN b k <;> rw [hb] at h <;> simp [resOk] at h ⊢
        exact h.1
      · simp only [lookupSN, if_neg hk]
        exact ihr h.2

theorem kindOk_of_pointwise (a b : StatNode) (hn : nodupSN a = true)
    (h : ∀ k, resOk (lookupSN a k) (lookupSN b k) = true) : kindOk a b = true := by
  induction a with
  | nil => rfl
  | leafE k v r ih =>
      simp only [nodupSN, Bool.and_eq_true, Bool.not_eq_true'] at hn
      have hk := h k
      simp only [lookupSN, if_pos rfl] at hk
      have hr : kindOk r b = true := by
        refine ih hn.2 (fun k' => ?_)
        by_cases hk' : k' = k
        · subst hk'
          have : lookupSN r k' = .missing := (lookupSN_missing_iff r k').mpr hn.1
          simp [this, resOk]
        · have := h k'
          simpa [lookupSN, hk'] using this
      cases hb : lookupSN b k <;> rw [hb] at hk <;> simp [resOk] at hk <;>
        simp [kindOk, hb, hr]
  | nodeE k c r ihc ihr =>
      simp only [nodupSN, Bool.and_eq_true, Bool.not_eq_true'] at hn
      have hk := h k
      simp only [lookupSN, if_pos rfl] at hk
      have hr : kindOk r b = true := by
        refine ihr hn.2 (fun k' => ?_)
        by_cases hk' : k' = k
        · subst hk'
          have : lookupSN r k' = .missing := (lookupSN_missing_iff r k').mpr hn.1.1
          simp [this, resOk]
        · have := h k'
          simpa [lookupSN, hk'] using this
      cases hb : lookupSN b k <;> rw [hb] at hk <;> simp [resOk] at hk <;>
        simp [kindOk, hb, hr, hk]

theorem kindOk_trans (a : StatNode) : ∀ b c : StatNode,
    kindOk a b = true → kindOk b c = true → kindOk a c = true := by
  induction a with
  | nil => intro b c _ _; rfl
  | leafE k v r ih =>
      intro b c hab hbc
      simp only [kindOk, Bool.and_eq_true] at hab
      obtain ⟨hab1, hab2⟩ := hab
      have hres := kindOk_lookup b c hbc k
      cases hb : lookupSN b k with
      | missing => rw [hb] at hab1; simp at hab1
      | nodev s => rw [hb] at hab1; simp at hab1
      | leafv w =>
          rw [hb] at hres
          cases hc : lookupSN c k with
          | missing => rw [hc] at hres; simp [resOk] at hres
          | nodev s => rw [hc] at hres; simp [resOk] at hres
          | leafv u =>
              simp only [kindOk, hc, Bool.and_eq_true]
              exact ⟨trivial, ih b c hab2 hbc⟩
  | nodeE k ch r ihc ihr =>
      intro b c hab hbc
      simp only [kindOk, Bool.and_eq_true] at hab
      obtain ⟨hab1, hab2⟩ := hab
      have hres := kindOk_lookup b c hbc k
      cases hb : lookupSN b k with
      | missing => rw [hb] at hab1; simp at hab1
      | leafv w => rw [hb] at hab1; simp at hab1
      | nodev sb =>
          rw [hb] at hab1 hres
          cases hc : lookupSN c k with
          | missing => rw [hc] at hres; simp [resOk] at hres
          | leafv u => rw [hc] at hres; simp [resOk] at hres
          | nodev sc =>
              rw [hc] at hres
              have hbsb : kindOk ch sb = true := hab1
              have hsbsc : kindOk sb sc = true := hres
              simp only [kindOk, hc, Bool.and_eq_true]
              exact ⟨ihc sb sc hbsb hsbsc, ihr b c hab2 hbc⟩

theorem resOk_lookup_refl (n : StatNode) (hn : nodupSN n = true) (k : String) :
    resOk (lookupSN n k) (lookupSN n k) = true := by
  cases h : lookupSN n k with
  | missing => rfl
  | leafv v => rfl
  | nodev s => exact kindOk_refl s (nodupSN_lookup n k s hn h)

/-- One `Inc` traversal preserves well-formedness and never changes the
kind of an existing key: each key either keeps its leaf kind, keeps its
interior kind (with the child again kind-preserved), or is freshly
created. -/
theorem incAux_kind_step (pathParts : List String) (cur : StatNode) (passed : List String)
    (valueName : String) (delta : Int) (hn : nodupSN cur = true) :
    nodupSN (incAux cur passed pathParts valueName delta).1 = true ∧
    kindOk cur (incAux cur passed pathParts valueName delta).1 = true := by
  induction pathParts generalizing cur passed with
  | nil =>
      cases h : lookupSN cur valueName with
      | missing =>
          refine ⟨by simpa [incAux, h] using nodupSN_setLeaf cur valueName delta hn, ?_⟩
          simp only [incAux, h]
          refine kindOk_of_pointwise cur _ hn (fun k => ?_)
          by_cases hk : k = valueName
          · subst hk; simp [h, resOk]
          · rw [lookupSN_setLeaf_ne cur valueName delta k hk]
            exact resOk_lookup_refl cur hn k
      | leafv v =>
          refine ⟨by simpa [incAux, h] using nodupSN_setLeaf cur valueName (v + delta) hn, ?_⟩
          simp only [incAux, h]
          refine kindOk_of_pointwise cur _ hn (fun k => ?_)
          by_cases hk : k = valueName
          · subst hk; simp [h, lookupSN_setLeaf_self, resOk]
          · rw [lookupSN_setLeaf_ne cur valueName (v + delta) k hk]
            exact resOk_lookup_refl cur hn k
      | nodev s =>
          exact ⟨by simpa [incAux, h] using hn, by
            simpa [incAux, h] using kindOk_refl cur hn⟩
  | cons part rest ih =>
      cases h : lookupSN cur part with
      | missing =>
          have hsub := ih StatNode.nil (passed ++ [part]) rfl
          refine ⟨by simpa [incAux, h] using
            nodupSN_setNode cur part _ hn hsub.1, ?_⟩
          simp only [incAux, h]
          refine kindOk_of_pointwise cur _ hn (fun k => ?_)
          by_cases hk : k = part
          · subst hk; simp [h, resOk]
          · rw [lookupSN_setNode_ne cur part _ k hk]
            exact resOk_lookup_refl cur hn k
      | leafv v =>
          exact ⟨by simpa [incAux, h] using hn, by
            simpa [incAux, h] using kindOk_refl cur hn⟩
      | nodev sub =>
          have hnsub : nodupSN sub = true := nodupSN_lookup cur part sub hn h
          have hsub := ih sub (passed ++ [part]) hnsub
          refine ⟨by simpa [incAux, h] using
            nodupSN_setNode cur part _ hn hsub.1, ?_⟩
          simp only [incAux, h]
          refine kindOk_of_pointwise cur _ hn (fun k => ?_)
          by_cases hk : k = part
          · subst hk
            simp only [h, lookupSN_setNode_self, resOk]
            exact hsub.2
          · rw [lookupSN_setNode_ne cur part _ k hk]
            exact resOk_lookup_refl cur hn k

theorem runIncs_kind (ops : List (String × Int)) : ∀ data : StatNode,
    nodupSN data = true →
    nodupSN (runIncs data ops) = true ∧ kindOk data (runIncs data ops) = true := by
  induction ops with
  | nil => intro data hn; exact ⟨hn, kindOk_refl data hn⟩
  | cons op ops ih =>
      intro data hn
      have hstep := incAux_kind_step (splitDots op.1).dropLast data []
        ((splitDots op.1).getLastD "") op.2 hn
      have hrun : runIncs data (op :: ops) = runIncs (inc data op.1 op.2).1 ops := by
        simp [runIncs]
      have hrest := ih (inc data op.1 op.2).1 (by simpa [inc] using hstep.1)
      refine ⟨by rw [hrun]; exact hrest.1, ?_⟩
      rw [hrun]
      exact kindOk_trans data _ _ (by simpa [inc] using hstep.2) hrest.2

/-- C3: across every sequence of `Inc` calls starting from the empty
tree, every key in every node only ever holds an integer leaf or an
interior node, and never changes kind between any earlier and any later
point of the sequence: leaves stay leaves and interior nodes stay
interior (recursively); only fresh keys are ever bound. -/
theorem inc_key_kind_invariant (ops1 ops2 : List (String × Int)) :
    kindOk (runIncs .nil ops1) (runIncs .nil (ops1 ++ ops2)) = true := by
  have happ : runIncs .nil (ops1 ++ ops2) = runIncs (runIncs .nil ops1) ops2 := by
    simp [runIncs, List.foldl_append]
  rw [happ]
  have h1 := runIncs_kind ops1 StatNode.nil rfl
  exact (runIncs_kind ops2 (runIncs .nil ops1) h1.1).2

/-- C4: starting from the empty tree, `Inc("a.b.c", 1)` twice succeeds
and yields the tree `{"a": {"b": {"c": 2}}}`, whose JSON snapshot is
exactly that object. -/
theorem inc_abc_twice_snapshot :
    (inc .nil "a.b.c" 1).2 = none ∧
    (inc (inc .nil "a.b.c" 1).1 "a.b.c" 1).2 = none ∧
    (inc (inc .nil "a.b.c" 1).1 "a.b.c" 1).1 =
      .nodeE "a" (.nodeE "b" (.leafE "c" 2 .nil) .nil) .nil ∧
    jsonSN (inc (inc .nil "a.b.c" 1).1 "a.b.c" 1).1 =
      "\x7b\"a\":\x7b\"b\":\x7b\"c\":2\x7d\x7d\x7d" := by
  refine ⟨rfl, rfl, by decide, by decide⟩

/-! ## The rule compiler / validator engine -/

/-- Models the Go `json.Number` type (a decimal literal kept as a string by
`decoder.UseNumber()`).  `n.Int64()` is `strconv.ParseInt(string(n), 10, 64)`:
it succeeds exactly when the literal is a plain decimal integer within
the `int64` range.  A number is embedded by whether that parse succeeds:
`intLit i` is a plain decimal integer literal of value `i` (within
`int64` range or not; the range is checked by `int64`), `badLit s` is
any other literal (fractional such as `1.5`, exponent form, etc.). -/
inductive GoNumber where
  | intLit : Int → GoNumber
  | badLit : String → GoNumber
deriving DecidableEq

def int64Lo : Int := -9223372036854775808
def int64Hi : Int := 9223372036854775807

/-- Conversion `json.Number.Int64()`. -/
def GoNumber.int64 : GoNumber → Except String Int
  | .intLit i =>
      if int64Lo ≤ i ∧ i ≤ int64Hi then .ok i
      else .error ("strconv.ParseInt: parsing \"" ++ toString i ++ "\": value out of range")
  | .badLit s => .error ("strconv.ParseInt: parsing \"" ++ s ++ "\": invalid syntax")

/-- A JSON-decoded Go `interface{}` value as produced by `json.Decoder`
with `UseNumber()`: `nil`, `bool`, `json.Number`, `string`, `[]interface{}`
or `map[string]interface{}`. -/
inductive Value where
  | vnull : Value
  | vbool : Bool → Value
  | vnum : GoNumber → Value
  | vstr : String → Value
  | varr : List Value → Value
  | vobj : List (String × Value) → Value

/-- Go map read `m[key]` with the `, existed` form, on a decoded JSON
object. -/
def lookupV : List (String × Value) → String → Option Value
  | [], _ => none
  | (k, v) :: r, key => if key = k then some v else lookupV r key

/-- Type `validFunc func(v interface{}) error`; `none` models a nil error. -/
abbrev validFunc := Value → Option String
abbrev stringValidFunc := String → Option String
abbrev intValidFunc := Int → Option String
abbrev boolValidFunc := Bool → Option String

/-- Run a slice of valid funcs in order, returning the first error. -/
def runValidFuncs {α : Type} : List (α → Option String) → α → Option String
  | [], _ => none
  | f :: fs, x =>
      match f x with
      | some e => some e
      | none => runValidFuncs fs x

/-- Constructor `newStringTypeValidFunc`: nil values pass, non-strings fail with
"not string", strings run the bound checks in order. -/
def newStringTypeValidFunc (validFuncs : List stringValidFunc) : validFunc := fun v =>
  match v with
  | .vnull => none
  | .vstr s => runValidFuncs validFuncs s
  | _ => some "not string"

/-- Constructor `newIntTypeValidFunc`: nil values pass, non-`json.Number` values fail
with "not number", numbers failing exact `Int64()` extraction fail with
the parse error, extracted integers run the bound checks in order. -/
def newIntTypeValidFunc (validFuncs : List intValidFunc) : validFunc := fun v =>
  match v with
  | .vnull => none
  | .vnum n =>
      match n.int64 with
      | .error e => some e
      | .ok i => runValidFuncs validFuncs i
  | _ => some "not number"

/-- Constructor `newBoolTypeValidFunc`: nil values pass, booleans pass, everything
else fails with "not bool"; the bound funcs are never consulted. -/
def newBoolTypeValidFunc (_validFuncs : List boolValidFunc) : validFunc := fun v =>
  match v with
  | .vnull => none
  | .vbool _ => none
  | _ => some "not bool"

/-- The outcome of a Go call that returns `(value, error)` and may also
panic: `ok` is a non-nil first component with nil error, `err` is a nil
first component with non-nil error, `crash` is a runtime panic (a failed
unchecked type assertion such as `restriction.(map[string]interface{})`
or `max.(json.Number)`). -/
inductive GoRes (α : Type) where
  | ok : α → GoRes α
  | err : String → GoRes α
  | crash : String → GoRes α

/-- The type assertion `x.(json.Number)` followed by `.Int64()`:
panics on a non-number, returns the parse error on a bad literal. -/
def goNumInt64 (v : Value) : GoRes Int :=
  match v with
  | .vnum n =>
      match n.int64 with
      | .ok i => .ok i
      | .error e => .err e
  | _ => .crash "interface conversion"

/-- The closure compiled by `generateStringLengthValidFunc` when both
`min` and `max` are present; `len(s)` is the UTF-8 byte length. -/
def goLen (s : String) : Int := Int.ofNat s.utf8ByteSize

def lenCheckBoth (minV maxV : Int) : stringValidFunc := fun s =>
  if goLen s < minV then some ("min: " ++ toString minV ++ ", current: " ++ toString (goLen s))
  else if goLen s > maxV then some ("max: " ++ toString maxV ++ ", current: " ++ toString (goLen s))
  else none

def lenCheckMax (maxV : Int) : stringValidFunc := fun s =>
  if goLen s > maxV then some ("max: " ++ toString maxV ++ ", current: " ++ toString (goLen s))
  else none

def lenCheckMin (minV : Int) : stringValidFunc := fun s =>
  if goLen s < minV then some ("min: " ++ toString minV ++ ", current: " ++ toString (goLen s))
  else none

def intCheckBoth (minV maxV : Int) : intValidFunc := fun i =>
  if i < minV then some ("min: " ++ toString minV ++ ", current: " ++ toString i)
  else if i > maxV then some ("max: " ++ toString maxV ++ ", current: " ++ toString i)
  else none

def intCheckMax (maxV : Int) : intValidFunc := fun i =>
  if i > maxV then some ("max: " ++ toString maxV ++ ", current: " ++ toString i)
  else none

def intCheckMin (minV : Int) : intValidFunc := fun i =>
  if i < minV then some ("min: " ++ toString minV ++ ", current: " ++ toString i)
  else none

/-- Compiler `generateStringLengthValidFunc(restriction)`: a nil restriction
yields no func; otherwise the restriction is asserted to be an object
(panicking if it is not), `max` is read and converted first, then `min`;
a conversion error is returned (dropping the func); with neither bound
present no func and no error result. -/
def generateStringLengthValidFunc (restriction : Value) : GoRes (Option stringValidFunc) :=
  match restriction with
  | .vnull => .ok none
  | .vobj mp =>
      match lookupV mp "max", lookupV mp "min" with
      | some mx, some mn =>
          match goNumInt64 mx with
          | .crash e => .crash e
          | .err e => .err e
          | .ok maxV =>
              match goNumInt64 mn with
              | .crash e => .crash e
              | .err e => .err e
              | .ok minV => .ok (some (lenCheckBoth minV maxV))
      | some mx, none =>
          match goNumInt64 mx with
          | .crash e => .crash e
          | .err e => .err e
          | .ok maxV => .ok (some (lenCheckMax maxV))
      | none, some mn =>
          match goNumInt64 mn with
          | .crash e => .crash e
          | .err e => .err e
          | .ok minV => .ok (some (lenCheckMin minV))
      | none, none => .ok none
  | _ => .crash "interface conversion"

/-- Compiler `generateIntRangeValidFunc(restriction)`: same shape as the string
length compiler, producing integer range checks. -/
def generateIntRangeValidFunc (restriction : Value) : GoRes (Option intValidFunc) :=
  match restriction with
  | .vnull => .ok none
  | .vobj mp =>
      match lookupV mp "max", lookupV mp "min" with
      | some mx, some mn =>
          match goNumInt64 mx with
          | .crash e => .crash e
          | .err e => .err e
          | .ok maxV =>
              match goNumInt64 mn with
              | .crash e => .crash e
              | .err e => .err e
              | .ok minV => .ok (some (intCheckBoth minV maxV))
      | some mx, none =>
          match goNumInt64 mx with
          | .crash e => .crash e
          | .err e => .err e
          | .ok maxV => .ok (some (intCheckMax maxV))
      | none, some mn =>
          match goNumInt64 mn with
          | .crash e => .crash e
          | .err e => .err e
          | .ok minV => .ok (some (intCheckMin minV))
      | none, none => .ok none
  | _ => .crash "interface conversion"

/-- One declared field: `Arg{Name, Type, Restrictions}`.  `ArgType` is a
Go `int` (1 = Int, 2 = String, 3 = Bool, anything else unsupported).
The restriction map is embedded as an association list; Go map iteration
order is unspecified, the list order stands in for it. -/
structure Arg where
  name : String
  argType : Int
  restrictions : List (String × Value)

/-- The restriction loop of `generateStringValidFunc`: `length`
restrictions are compiled (an error return aborts the whole field with
`return nil, err`), nil-compiled `length` funcs and unknown restriction
names are logged and skipped. -/
def genStringFuncs : List (String × Value) → List stringValidFunc → GoRes (List stringValidFunc)
  | [], acc => .ok acc
  | (name, restriction) :: rest, acc =>
      if name = "length" then
        match generateStringLengthValidFunc restriction with
        | .crash e => .crash e
        | .err e => .err e
        | .ok (some f) => genStringFuncs rest (acc ++ [f])
        | .ok none => genStringFuncs rest acc
      else genStringFuncs rest acc

/-- Wrapper `generateStringValidFunc(arg)`. -/
def generateStringValidFunc (arg : Arg) : GoRes (Option validFunc) :=
  match genStringFuncs arg.restrictions [] with
  | .ok fs => .ok (some (newStringTypeValidFunc fs))
  | .err e => .err e
  | .crash e => .crash e

/-- The restriction loop of `generateIntValidFunc`, for `range`. -/
def genIntFuncs : List (String × Value) → List intValidFunc → GoRes (List intValidFunc)
  | [], acc => .ok acc
  | (name, restriction) :: rest, acc =>
      if name = "range" then
        match generateIntRangeValidFunc restriction with
        | .crash e => .crash e
        | .err e => .err e
        | .ok (some f) => genIntFuncs rest (acc ++ [f])
        | .ok none => genIntFuncs rest acc
      else genIntFuncs rest acc

/-- Wrapper `generateIntValidFunc(arg)`. -/
def generateIntValidFunc (arg : Arg) : GoRes (Option validFunc) :=
  match genIntFuncs arg.restrictions [] with
  | .ok fs => .ok (some (newIntTypeValidFunc fs))
  | .err e => .err e
  | .crash e => .crash e

/-- Compiler `generateBoolValidFunc(arg)`: ignores the restrictions entirely. -/
def generateBoolValidFunc (_arg : Arg) : GoRes (Option validFunc) :=
  .ok (some (newBoolTypeValidFunc []))

/-- Dispatcher `generateValidFunc(arg)`: dispatch on the declared type; an
unsupported type is logged and yields `(nil, nil)` — no validator, so
the field passes through unchecked at request time. -/
def generateValidFunc (arg : Arg) : GoRes (Option validFunc) :=
  if arg.argType = 2 then generateStringValidFunc arg
  else if arg.argType = 1 then generateIntValidFunc arg
  else if arg.argType = 3 then generateBoolValidFunc arg
  else .ok none

/-- Did compilation produce a validator for the field? -/
def isCompiled : GoRes (Option validFunc) → Bool
  | .ok (some _) => true
  | _ => false

/-- Did compilation panic? -/
def isCrash {α : Type} : GoRes α → Bool
  | .crash _ => true
  | _ => false

/-- The validator the request handler effectively runs for a field: the
compiled one if present, otherwise the accept-everything behaviour of a
nil `validFunc` (`newHandleFunc` treats a nil func as valid). -/
def compiledOrId (r : GoRes (Option validFunc)) : validFunc :=
  match r with
  | .ok (some f) => f
  | _ => fun _ => none

/-! ## Claim-side (spec) predicates and parameter builders -/

/-- Spec-side predicate: is a present lower bound satisfied? -/
def boundOkMin : Option Int → Int → Bool
  | none, _ => true
  | some m, l => decide (m ≤ l)

/-- Spec-side predicate: is a present upper bound satisfied? -/
def boundOkMax : Option Int → Int → Bool
  | none, _ => true
  | some m, l => decide (l ≤ m)

/-- Spec-side acceptance predicate of the amended C5: a String-typed
validator with optional length bounds accepts null, accepts a string
whose UTF-8 byte length lies within the present bounds (inclusive), and
rejects everything else. -/
def lengthSpecAccepts (mn mx : Option Int) (v : Value) : Bool :=
  match v with
  | .vnull => true
  | .vstr s => boundOkMin mn (goLen s) && boundOkMax mx (goLen s)
  | _ => false

/-- Spec-side acceptance predicate of the amended C6: an Integer-typed
validator with optional range bounds accepts null, accepts a number
whose exact `Int64()` extraction succeeds with a value within the
present bounds (inclusive), and rejects everything else. -/
def rangeSpecAccepts (mn mx : Option Int) (v : Value) : Bool :=
  match v with
  | .vnull => true
  | .vnum n =>
      match n.int64 with
      | .ok i => boundOkMin mn i && boundOkMax mx i
      | .error _ => false
  | _ => false

/-- Spec-side acceptance predicate of the amended C7: a Boolean-typed
validator accepts null and booleans, nothing else. -/
def boolSpecAccepts : Value → Bool
  | .vnull => true
  | .vbool _ => true
  | _ => false

/-- Does the value carry a string? (used to state counterexamples) -/
def isStrV : Value → Bool
  | .vstr _ => true
  | _ => false

/-- Does the value carry a number? (used to state counterexamples) -/
def isNumV : Value → Bool
  | .vnum _ => true
  | _ => false

/-- Does the value carry a boolean? (used to state counterexamples) -/
def isBoolV : Value → Bool
  | .vbool _ => true
  | _ => false

/-- An optional integer bound, as the corresponding restriction
parameter entry. -/
def optBound (key : String) : Option Int → List (String × Value)
  | some i => [(key, Value.vnum (.intLit i))]
  | none => []

/-- A String field with a `length` restriction carrying the given
optional integer bounds. -/
def lenArg (nm : String) (mn mx : Option Int) : Arg :=
  ⟨nm, 2, [("length", Value.vobj (optBound "min" mn ++ optBound "max" mx))]⟩

/-- An Integer field with a `range` restriction carrying the given
optional integer bounds. -/
def rangeArg (nm : String) (mn mx : Option Int) : Arg :=
  ⟨nm, 1, [("range", Value.vobj (optBound "min" mn ++ optBound "max" mx))]⟩

/-- Is an integer within the `int64` range? -/
def inInt64 (i : Int) : Bool := decide (int64Lo ≤ i) && decide (i ≤ int64Hi)

/-- Is a present optional bound within the `int64` range? -/
def inInt64Opt : Option Int → Bool
  | none => true
  | some i => inInt64 i

/-! ## C5: the String length validator -/

/-- C5 counterexample: with `length: {min: 2, max: 5}`, the compiled
String validator accepts JSON null even though null is not a string
(the claim says every non-string input fails), and accepts the
one-character string "é" (UTF-8 byte length 2) even though its
character length 1 is below `min` (the claim measures character
length). -/
theorem length_validator_counterexample :
    compiledOrId (generateValidFunc (lenArg "f" (some 2) (some 5))) Value.vnull = none ∧
    isStrV Value.vnull = false ∧
    compiledOrId (generateValidFunc (lenArg "f" (some 2) (some 5))) (Value.vstr "é") = none ∧
    "é".length < 2 := by
  refine ⟨rfl, rfl, rfl, by decide⟩

/-- C5 (amended): for every String field compiled with a `length`
restriction carrying optional integer `min`/`max` within `int64` range,
the resulting validator accepts exactly null and the strings whose
UTF-8 byte length lies within the present bounds (inclusive; both
absent is a no-op); every non-null non-string input fails with the
wrong-type reason. -/
theorem length_validator_semantics (nm : String) (mn mx : Option Int) (v : Value)
    (hmn : inInt64Opt mn = true) (hmx : inInt64Opt mx = true) :
    isCompiled (generateValidFunc (lenArg nm mn mx)) = true ∧
    (compiledOrId (generateValidFunc (lenArg nm mn mx)) v = none ↔
      lengthSpecAccepts mn mx v = true) := by
  rcases mn with _ | a <;> rcases mx with _ | b
  · have hcomp : generateValidFunc (lenArg nm none none) =
        .ok (some (newStringTypeValidFunc [])) := by
      simp [generateValidFunc, lenArg, generateStringValidFunc, genStringFuncs,
        generateStringLengthValidFunc, optBound, lookupV]
    rw [hcomp]
    refine ⟨rfl, ?_⟩
    cases v <;>
      simp [compiledOrId, newStringTypeValidFunc, runValidFuncs, lengthSpecAccepts,
        boundOkMin, boundOkMax]
  · simp only [inInt64Opt, inInt64, Bool.and_eq_true, decide_eq_true_eq] at hmx
    have hcomp : generateValidFunc (lenArg nm none (some b)) =
        .ok (some (newStringTypeValidFunc [lenCheckMax b])) := by
      simp [generateValidFunc, lenArg, generateStringValidFunc, genStringFuncs,
        generateStringLengthValidFunc, optBound, lookupV, goNumInt64, GoNumber.int64,
        hmx.1, hmx.2]
    rw [hcomp]
    refine ⟨rfl, ?_⟩
    cases v with
    | vstr s =>
        simp only [compiledOrId, newStringTypeValidFunc, runValidFuncs, lenCheckMax,
          lengthSpecAccepts, boundOkMin, boundOkMax, Bool.true_and]
        split_ifs with h1 <;> simp <;> omega
    | vnull => simp [compiledOrId, newStringTypeValidFunc, lengthSpecAccepts]
    | vbool c => simp [compiledOrId, newStringTypeValidFunc, lengthSpecAccepts]
    | vnum n => simp [compiledOrId, newStringTypeValidFunc, lengthSpecAccepts]
    | varr l => simp [compiledOrId, newStringTypeValidFunc, lengthSpecAccepts]
    | vobj o => simp [compiledOrId, newStringTypeValidFunc, lengthSpecAccepts]
  · simp only [inInt64Opt, inInt64, Bool.and_eq_true, decide_eq_true_eq] at hmn
    have hcomp : generateValidFunc (lenArg nm (some a) none) =
        .ok (some (newStringTypeValidFunc [lenCheckMin a])) := by
      simp [generateValidFunc, lenArg, generateStringValidFunc, genStringFuncs,
        generateStringLengthValidFunc, optBound, lookupV, goNumInt64, GoNumber.int64,
        hmn.1, hmn.2]
    rw [hcomp]
    refine ⟨rfl, ?_⟩
    cases v with
    | vstr s =>
        simp only [compiledOrId, newStringTypeValidFunc, runValidFuncs, lenCheckMin,
          lengthSpecAccepts, boundOkMin, boundOkMax, Bool.and_true]
        split_ifs with h1 <;> simp <;> omega
    | vnull => simp [compiledOrId, newStringTypeValidFunc, lengthSpecAccepts]
    | vbool c => simp [compiledOrId, newStringTypeValidFunc, lengthSpecAccepts]
    | vnum n => simp [compiledOrId, newStringTypeValidFunc, lengthSpecAccepts]
    | varr l => simp [compiledOrId, newStringTypeValidFunc, lengthSpecAccepts]
    | vobj o => simp [compiledOrId, newStringTypeValidFunc, lengthSpecAccepts]
  · simp only [inInt64Opt, inInt64, Bool.and_eq_true, decide_eq_true_eq] at hmn hmx
    have hcomp : generateValidFunc (lenArg nm (some a) (some b)) =
        .ok (some (newStringTypeValidFunc [lenCheckBoth a b])) := by
      simp [generateValidFunc, lenArg, generateStringValidFunc, genStringFuncs,
        generateStringLengthValidFunc, optBound, lookupV, goNumInt64, GoNumber.int64,
        hmn.1, hmn.2, hmx.1, hmx.2]
    rw [hcomp]
    refine ⟨rfl, ?_⟩
    cases v with
    | vstr s =>
        simp only [compiledOrId, newStringTypeValidFunc, runValidFuncs, lenCheckBoth,
          lengthSpecAccepts, boundOkMin, boundOkMax]
        split_ifs with h1 h2 <;> simp <;> omega
    | vnull => simp [compiledOrId, newStringTypeValidFunc, lengthSpecAccepts]
    | vbool c => simp [compiledOrId, newStringTypeValidFunc, lengthSpecAccepts]
    | vnum n => simp [compiledOrId, newStringTypeValidFunc, lengthSpecAccepts]
    | varr l => simp [compiledOrId, newStringTypeValidFunc, lengthSpecAccepts]
    | vobj o => simp [compiledOrId, newStringTypeValidFunc, lengthSpecAccepts]

/-- Witness for C5 (amended): with `length: {min: 2, max: 5}` the
compiled validator exists and accepts "abc". -/
theorem length_validator_semantics_witness :
    isCompiled (generateValidFunc (lenArg "f" (some 2) (some 5))) = true ∧
    (compiledOrId (generateValidFunc (lenArg "f" (some 2) (some 5))) (Value.vstr "abc") = none ↔
      lengthSpecAccepts (some 2) (some 5) (Value.vstr "abc") = true) :=
  length_validator_semantics "f" (some 2) (some 5) (Value.vstr "abc") (by decide) (by decide)

/-! ## C6: the Integer range validator -/

/-- C6 counterexample: with `range: {min: 0, max: 10}`, the compiled
Integer validator accepts JSON null even though null is not a number
(the claim says every value not exactly representable as an integer
fails as a type mismatch). -/
theorem range_validator_counterexample :
    compiledOrId (generateValidFunc (rangeArg "f" (some 0) (some 10))) Value.vnull = none ∧
    isNumV Value.vnull = false := by
  exact ⟨rfl, rfl⟩

/-- C6 (amended): for every Integer field compiled with a `range`
restriction carrying optional integer `min`/`max` within `int64` range,
the resulting validator accepts exactly null and the numbers whose
exact `Int64()` extraction succeeds with a value within the present
bounds (inclusive); every non-null value that is not exactly
representable as an integer fails before any range check. -/
theorem range_validator_semantics (nm : String) (mn mx : Option Int) (v : Value)
    (hmn : inInt64Opt mn = true) (hmx : inInt64Opt mx = true) :
    isCompiled (generateValidFunc (rangeArg nm mn mx)) = true ∧
    (compiledOrId (generateValidFunc (rangeArg nm mn mx)) v = none ↔
      rangeSpecAccepts mn mx v = true) := by
  rcases mn with _ | a <;> rcases mx with _ | b
  · have hcomp : generateValidFunc (rangeArg nm none none) =
        .ok (some (newIntTypeValidFunc [])) := by
      simp [generateValidFunc, rangeArg, generateIntValidFunc, genIntFuncs,
        generateIntRangeValidFunc, optBound, lookupV]
    rw [hcomp]
    refine ⟨rfl, ?_⟩
    cases v with
    | vnum n =>
        cases hn : n.int64 with
        | ok i =>
            simp [compiledOrId, newIntTypeValidFunc, runValidFuncs, rangeSpecAccepts,
              hn, boundOkMin, boundOkMax]
        | error e =>
            simp [compiledOrId, newIntTypeValidFunc, rangeSpecAccepts, hn]
    | vnull => simp [compiledOrId, newIntTypeValidFunc, rangeSpecAccepts]
    | vbool c => simp [compiledOrId, newIntTypeValidFunc, rangeSpecAccepts]
    | vstr s => simp [compiledOrId, newIntTypeValidFunc, rangeSpecAccepts]
    | varr l => simp [compiledOrId, newIntTypeValidFunc, rangeSpecAccepts]
    | vobj o => simp [compiledOrId, newIntTypeValidFunc, rangeSpecAccepts]
  · simp only [inInt64Opt, inInt64, Bool.and_eq_true, decide_eq_true_eq] at hmx
    have hcomp : generateValidFunc (rangeArg nm none (some b)) =
        .ok (some (newIntTypeValidFunc [intCheckMax b])) := by
      simp [generateValidFunc, rangeArg, generateIntValidFunc, genIntFuncs,
        generateIntRangeValidFunc, optBound, lookupV, goNumInt64, GoNumber.int64,
        hmx.1, hmx.2]
    rw [hcomp]
    refine ⟨rfl, ?_⟩
    cases v with
    | vnum n =>
        cases hn : n.int64 with
        | ok i =>
            simp only [compiledOrId, newIntTypeValidFunc, runValidFuncs, intCheckMax,
              rangeSpecAccepts, hn, boundOkMin, boundOkMax, Bool.true_and]
            split_ifs with h1 <;> simp <;> omega
        | error e =>
            simp [compiledOrId, newIntTypeValidFunc, rangeSpecAccepts, hn]
    | vnull => simp [compiledOrId, newIntTypeValidFunc, rangeSpecAccepts]
    | vbool c => simp [compiledOrId, newIntTypeValidFunc, rangeSpecAccepts]
    | vstr s => simp [compiledOrId, newIntTypeValidFunc, rangeSpecAccepts]
    | varr l => simp [compiledOrId, newIntTypeValidFunc, rangeSpecAccepts]
    | vobj o => simp [compiledOrId, newIntTypeValidFunc, rangeSpecAccepts]
  · simp only [inInt64Opt, inInt64, Bool.and_eq_true, decide_eq_true_eq] at hmn
    have hcomp : generateValidFunc (rangeArg nm (some a) none) =
        .ok (some (newIntTypeValidFunc [intCheckMin a])) := by
      simp [generateValidFunc, rangeArg, generateIntValidFunc, genIntFuncs,
        generateIntRangeValidFunc, optBound, lookupV, goNumInt64, GoNumber.int64,
        hmn.1, hmn.2]
    rw [hcomp]
    refine ⟨rfl, ?_⟩
    cases v with
    | vnum n =>
        cases hn : n.int64 with
        | ok i =>
            simp only [compiledOrId, newIntTypeValidFunc, runValidFuncs, intCheckMin,
              rangeSpecAccepts, hn, boundOkMin, boundOkMax, Bool.and_true]
            split_ifs with h1 <;> simp <;> omega
        | error e =>
            simp [compiledOrId, newIntTypeValidFunc, rangeSpecAccepts, hn]
    | vnull => simp [compiledOrId, newIntTypeValidFunc, rangeSpecAccepts]
    | vbool c => simp [compiledOrId, newIntTypeValidFunc, rangeSpecAccepts]
    | vstr s => simp [compiledOrId, newIntTypeValidFunc, rangeSpecAccepts]
    | varr l => simp [compiledOrId, newIntTypeValidFunc, rangeSpecAccepts]
    | vobj o => simp [compiledOrId, newIntTypeValidFunc, rangeSpecAccepts]
  · simp only [inInt64Opt, inInt64, Bool.and_eq_true, decide_eq_true_eq] at hmn hmx
    have hcomp : generateValidFunc (rangeArg nm (some a) (some b)) =
        .ok (some (newIntTypeValidFunc [intCheckBoth a b])) := by
      simp [generateValidFunc, rangeArg, generateIntValidFunc, genIntFuncs,
        generateIntRangeValidFunc, optBound, lookupV, goNumInt64, GoNumber.int64,
        hmn.1, hmn.2, hmx.1, hmx.2]
    rw [hcomp]
    refine ⟨rfl, ?_⟩
    cases v with
    | vnum n =>
        cases hn : n.int64 with
        | ok i =>
            simp only [compiledOrId, newIntTypeValidFunc, runValidFuncs, intCheckBoth,
              rangeSpecAccepts, hn, boundOkMin, boundOkMax]
            split_ifs with h1 h2 <;> simp <;> omega
        | error e =>
            simp [compiledOrId, newIntTypeValidFunc, rangeSpecAccepts, hn]
    | vnull => simp [compiledOrId, newIntTypeValidFunc, rangeSpecAccepts]
    | vbool c => simp [compiledOrId, newIntTypeValidFunc, rangeSpecAccepts]
    | vstr s => simp [compiledOrId, newIntTypeValidFunc, rangeSpecAccepts]
    | varr l => simp [compiledOrId, newIntTypeValidFunc, rangeSpecAccepts]
    | vobj o => simp [compiledOrId, newIntTypeValidFunc, rangeSpecAccepts]

/-- Witness for C6 (amended): with `range: {min: 0, max: 10}` the
compiled validator exists and accepts the number 10. -/
theorem range_validator_semantics_witness :
    isCompiled (generateValidFunc (rangeArg "f" (some 0) (some 10))) = true ∧
    (compiledOrId (generateValidFunc (rangeArg "f" (some 0) (some 10)))
        (Value.vnum (.intLit 10)) = none ↔
      rangeSpecAccepts (some 0) (some 10) (Value.vnum (.intLit 10)) = true) :=
  range_validator_semantics "f" (some 0) (some 10) (Value.vnum (.intLit 10))
    (by decide) (by decide)

/-! ## C7: the Boolean validator -/

/-- C7 counterexample: the compiled Boolean validator accepts JSON null
even though null is not a boolean (the claim says success exactly on
booleans). -/
theorem bool_validator_counterexample :
    compiledOrId (generateValidFunc ⟨"b", 3, []⟩) Value.vnull = none ∧
    isBoolV Value.vnull = false := by
  exact ⟨rfl, rfl⟩

/-- C7 (amended): for every Boolean-typed field, regardless of any
restriction entries present, a validator is compiled that consults no
restrictions: it accepts exactly null and the two booleans, and fails
with the type-mismatch reason on every other value. -/
theorem bool_validator_semantics (nm : String) (rs : List (String × Value)) (v : Value) :
    isCompiled (generateValidFunc ⟨nm, 3, rs⟩) = true ∧
    (compiledOrId (generateValidFunc ⟨nm, 3, rs⟩) v = none ↔ boolSpecAccepts v = true) := by
  refine ⟨rfl, ?_⟩
  cases v <;>
    simp [generateValidFunc, generateBoolValidFunc, compiledOrId,
      newBoolTypeValidFunc, boolSpecAccepts]

/-! ## C10: every compiled validator passes JSON null -/

/-- C10: every validator produced by `generateValidFunc`, whatever the
declared type and restrictions, returns success on JSON null: the nil
check short-circuits before any type or constraint check. -/
theorem compiled_validator_null_passes (arg : Arg) (f : validFunc)
    (h : generateValidFunc arg = .ok (some f)) : f Value.vnull = none := by
  by_cases h2 : arg.argType = 2
  · have hgen : generateStringValidFunc arg = .ok (some f) := by
      rw [← h]; simp [generateValidFunc, h2]
    cases hres : genStringFuncs arg.restrictions [] with
    | ok fs =>
        simp only [generateStringValidFunc, hres, GoRes.ok.injEq, Option.some.injEq] at hgen
        rw [← hgen]
        rfl
    | err e => simp [generateStringValidFunc, hres] at hgen
    | crash e => simp [generateStringValidFunc, hres] at hgen
  · by_cases h1 : arg.argType = 1
    · have hgen : generateIntValidFunc arg = .ok (some f) := by
        rw [← h]; simp [generateValidFunc, h2, h1]
      cases hres : genIntFuncs arg.restrictions [] with
      | ok fs =>
          simp only [generateIntValidFunc, hres, GoRes.ok.injEq, Option.some.injEq] at hgen
          rw [← hgen]
          rfl
      | err e => simp [generateIntValidFunc, hres] at hgen
      | crash e => simp [generateIntValidFunc, hres] at hgen
    · by_cases h3 : arg.argType = 3
      · have hgen : generateBoolValidFunc arg = .ok (some f) := by
          rw [← h]; simp [generateValidFunc, h2, h1, h3]
        simp only [generateBoolValidFunc, GoRes.ok.injEq, Option.some.injEq] at hgen
        rw [← hgen]
        rfl
      · simp [generateValidFunc, h2, h1, h3] at h

/-- Witness for C10: the Boolean validator compiled for a field with no
restrictions passes JSON null. -/
theorem compiled_validator_null_passes_witness :
    newBoolTypeValidFunc [] Value.vnull = none :=
  compiled_validator_null_passes ⟨"x", 3, []⟩ (newBoolTypeValidFunc []) rfl

/-! ## C1: a min/max parameter that fails exact integer parsing -/

/-- C1 counterexample: a String field whose `length` restriction has
`min: 1.5` (present but not parseable as an exact integer) makes the
whole field compilation return the parse error with no Validator at
all — nothing is produced from the remaining restrictions. -/
theorem bad_param_drops_whole_validator_counterexample :
    generateValidFunc ⟨"f", 2, [("length", Value.vobj [("min", Value.vnum (.badLit "1.5"))]),
        ("other", Value.vnull)]⟩ =
      .err "strconv.ParseInt: parsing \"1.5\": invalid syntax" ∧
    isCompiled (generateValidFunc ⟨"f", 2,
        [("length", Value.vobj [("min", Value.vnum (.badLit "1.5"))]),
         ("other", Value.vnull)]⟩) = false := by
  exact ⟨rfl, rfl⟩

/-! ## C8: totality of compilation -/

/-- Does an optional restriction-parameter entry hold a `json.Number`
when present? -/
def numOk : Option Value → Bool
  | none => true
  | some (.vnum _) => true
  | some _ => false

/-- Is a restriction parameter shaped so that the bounded compilers do
not hit a failing type assertion: nil, or an object whose `min`/`max`
entries, when present, are numbers? -/
def paramOk : Value → Bool
  | .vnull => true
  | .vobj mp => numOk (lookupV mp "max") && numOk (lookupV mp "min")
  | _ => false

/-- Is every restriction parameter that compilation actually inspects
(`length` for a String field, `range` for an Integer field) well
shaped? -/
def argOk (arg : Arg) : Bool :=
  if arg.argType = 2 then arg.restrictions.all (fun p => p.1 != "length" || paramOk p.2)
  else if arg.argType = 1 then arg.restrictions.all (fun p => p.1 != "range" || paramOk p.2)
  else true

/-- C8 counterexample: a `length` restriction whose parameters are a
string rather than an object makes compilation panic at the type
assertion `restriction.(map[string]interface{})` — compile is not a
total function. -/
theorem compile_crash_counterexample :
    isCrash (generateValidFunc ⟨"f", 2, [("length", Value.vstr "foo")]⟩) = true := by
  exact rfl

theorem goNumInt64_no_crash (w : Value) (h : numOk (some w) = true) :
    isCrash (goNumInt64 w) = false := by
  cases w with
  | vnum n =>
      cases hn : n.int64 with
      | ok i => simp [goNumInt64, hn, isCrash]
      | error e => simp [goNumInt64, hn, isCrash]
  | vnull => simp [numOk] at h
  | vbool c => simp [numOk] at h
  | vstr s => simp [numOk] at h
  | varr l => simp [numOk] at h
  | vobj o => simp [numOk] at h

theorem genLen_no_crash (p : Value) (hp : paramOk p = true) :
    isCrash (generateStringLengthValidFunc p) = false := by
  cases p with
  | vnull => rfl
  | vbool c => simp [paramOk] at hp
  | vnum n => simp [paramOk] at hp
  | vstr s => simp [paramOk] at hp
  | varr l => simp [paramOk] at hp
  | vobj mp =>
      simp only [paramOk, Bool.and_eq_true] at hp
      obtain ⟨h1, h2⟩ := hp
      cases hmx : lookupV mp "max" with
      | none =>
          cases hmn : lookupV mp "min" with
          | none => simp [generateStringLengthValidFunc, hmx, hmn, isCrash]
          | some mn =>
              rw [hmn] at h2
              have hcn := goNumInt64_no_crash mn h2
              cases hres : goNumInt64 mn with
              | ok i => simp [generateStringLengthValidFunc, hmx, hmn, hres, isCrash]
              | err e => simp [generateStringLengthValidFunc, hmx, hmn, hres, isCrash]
              | crash e => rw [hres] at hcn; simp [isCrash] at hcn
      | some mx =>
          rw [hmx] at h1
          have hcx := goNumInt64_no_crash mx h1
          cases hmn : lookupV mp "min" with
          | none =>
              cases hres : goNumInt64 mx with
              | ok i => simp [generateStringLengthValidFunc, hmx, hmn, hres, isCrash]
              | err e => simp [generateStringLengthValidFunc, hmx, hmn, hres, isCrash]
              | crash e => rw [hres] at hcx; simp [isCrash] at hcx
          | some mn =>
              rw [hmn] at h2
              have hcn := goNumInt64_no_crash mn h2
              cases hresx : goNumInt64 mx with
              | crash e => rw [hresx] at hcx; simp [isCrash] at hcx
              | err e => simp [generateStringLengthValidFunc, hmx, hmn, hresx, isCrash]
              | ok i =>
                  cases hresn : goNumInt64 mn with
                  | crash e => rw [hresn] at hcn; simp [isCrash] at hcn
                  | err e =>
                      simp [generateStringLengthValidFunc, hmx, hmn, hresx, hresn, isCrash]
                  | ok j =>
                      simp [generateStringLengthValidFunc, hmx, hmn, hresx, hresn, isCrash]

theorem genRange_no_crash (p : Value) (hp : paramOk p = true) :
    isCrash (generateIntRangeValidFunc p) = false := by
  cases p with
  | vnull => rfl
  | vbool c => simp [paramOk] at hp
  | vnum n => simp [paramOk] at hp
  | vstr s => simp [paramOk] at hp
  | varr l => simp [paramOk] at hp
  | vobj mp =>
      simp only [paramOk, Bool.and_eq_true] at hp
      obtain ⟨h1, h2⟩ := hp
      cases hmx : lookupV mp "max" with
      | none =>
          cases hmn : lookupV mp "min" with
          | none => simp [generateIntRangeValidFunc, hmx, hmn, isCrash]
          | some mn =>
              rw [hmn] at h2
              have hcn := goNumInt64_no_crash mn h2
              cases hres : goNumInt64 mn with
              | ok i => simp [generateIntRangeValidFunc, hmx, hmn, hres, isCrash]
              | err e => simp [generateIntRangeValidFunc, hmx, hmn, hres, isCrash]
              | crash e => rw [hres] at hcn; simp [isCrash] at hcn
      | some mx =>
          rw [hmx] at h1
          have hcx := goNumInt64_no_crash mx h1
          cases hmn : lookupV mp "min" with
          | none =>
              cases hres : goNumInt64 mx with
              | ok i => simp [generateIntRangeValidFunc, hmx, hmn, hres, isCrash]
              | err e => simp [generateIntRangeValidFunc, hmx, hmn, hres, isCrash]
              | crash e => rw [hres] at hcx; simp [isCrash] at hcx
          | some mn =>
              rw [hmn] at h2
              have hcn := goNumInt64_no_crash mn h2
              cases hresx : goNumInt64 mx with
              | crash e => rw [hresx] at hcx; simp [isCrash] at hcx
              | err e => simp [generateIntRangeValidFunc, hmx, hmn, hresx, isCrash]
              | ok i =>
                  cases hresn : goNumInt64 mn with
                  | crash e => rw [hresn] at hcn; simp [isCrash] at hcn
                  | err e =>
                      simp [generateIntRangeValidFunc, hmx, hmn, hresx, hresn, isCrash]
                  | ok j =>
                      simp [generateIntRangeValidFunc, hmx, hmn, hresx, hresn, isCrash]

theorem genStringFuncs_no_crash (rs : List (String × Value))
    (h : rs.all (fun p => p.1 != "length" || paramOk p.2) = true) :
    ∀ acc, isCrash (genStringFuncs rs acc) = false := by
  induction rs with
  | nil => intro acc; rfl
  | cons p rest ih =>
      intro acc
      simp only [List.all_cons, Bool.and_eq_true] at h
      obtain ⟨hp, hrest⟩ := h
      obtain ⟨name, restriction⟩ := p
      by_cases hn : name = "length"
      · subst hn
        simp only [bne_self_eq_false, Bool.false_or] at hp
        have hc := genLen_no_crash restriction hp
        cases hres : generateStringLengthValidFunc restriction with
        | crash e => rw [hres] at hc; simp [isCrash] at hc
        | err e => simp [genStringFuncs, hres, isCrash]
        | ok of =>
            cases of with
            | some f =>
                simp only [genStringFuncs, if_pos rfl, hres]
                exact ih hrest _
            | none =>
                simp only [genStringFuncs, if_pos rfl, hres]
                exact ih hrest _
      · simp only [genStringFuncs, if_neg hn]
        exact ih hrest _

theorem genIntFuncs_no_crash (rs : List (String × Value))
    (h : rs.all (fun p => p.1 != "range" || paramOk p.2) = true) :
    ∀ acc, isCrash (genIntFuncs rs acc) = false := by
  induction rs with
  | nil => intro acc; rfl
  | cons p rest ih =>
      intro acc
      simp only [List.all_cons, Bool.and_eq_true] at h
      obtain ⟨hp, hrest⟩ := h
      obtain ⟨name, restriction⟩ := p
      by_cases hn : name = "range"
      · subst hn
        simp only [bne_self_eq_false, Bool.false_or] at hp
        have hc := genRange_no_crash restriction hp
        cases hres : generateIntRangeValidFunc restriction with
        | crash e => rw [hres] at hc; simp [isCrash] at hc
        | err e => simp [genIntFuncs, hres, isCrash]
        | ok of =>
            cases of with
            | some f =>
                simp only [genIntFuncs, if_pos rfl, hres]
                exact ih hrest _
            | none =>
                simp only [genIntFuncs, if_pos rfl, hres]
                exact ih hrest _
      · simp only [genIntFuncs, if_neg hn]
        exact ih hrest _

/-- C8 (amended): compilation never panics when every restriction
parameter it actually inspects is well shaped (nil or an object whose
present `min`/`max` entries are numbers): unknown restriction names and
unknown types are logged and skipped, and a numeric `min`/`max` that is
not an exact `int64` yields a returned error (aborting the validator of
that field), never a panic.  A `length`/`range` parameter that is not an
object, or whose present `min`/`max` is not a number, does panic (see
the counterexample), so compile is total only on well-shaped
configurations. -/
theorem compile_no_crash_on_wellshaped (arg : Arg) (h : argOk arg = true) :
    isCrash (generateValidFunc arg) = false := by
  by_cases h2 : arg.argType = 2
  · simp only [argOk, h2, if_true, if_pos] at h
    have hc := genStringFuncs_no_crash arg.restrictions h []
    cases hres : genStringFuncs arg.restrictions [] with
    | ok fs => simp [generateValidFunc, h2, generateStringValidFunc, hres, isCrash]
    | err e => simp [generateValidFunc, h2, generateStringValidFunc, hres, isCrash]
    | crash e => rw [hres] at hc; simp [isCrash] at hc
  · by_cases h1 : arg.argType = 1
    · simp only [argOk, h2, h1, if_true, if_pos, if_neg] at h
      have hc := genIntFuncs_no_crash arg.restrictions h []
      cases hres : genIntFuncs arg.restrictions [] with
      | ok fs => simp [generateValidFunc, h2, h1, generateIntValidFunc, hres, isCrash]
      | err e => simp [generateValidFunc, h2, h1, generateIntValidFunc, hres, isCrash]
      | crash e => rw [hres] at hc; simp [isCrash] at hc
    · by_cases h3 : arg.argType = 3
      · simp [generateValidFunc, h2, h1, h3, generateBoolValidFunc, isCrash]
      · simp [generateValidFunc, h2, h1, h3, isCrash]

/-- Witness for C8 (amended): a field with a nil `length` restriction
and an unknown restriction compiles without a panic. -/
theorem compile_no_crash_on_wellshaped_witness :
    isCrash (generateValidFunc ⟨"f", 2, [("length", Value.vnull), ("foo", Value.vstr "x")]⟩)
      = false :=
  compile_no_crash_on_wellshaped ⟨"f", 2, [("length", Value.vnull), ("foo", Value.vstr "x")]⟩
    (by rfl)

/-! ## C1 (amended): a bad min/max bound aborts the whole field -/

/-- Did the Go call return a non-nil error (with a nil first value)? -/
def isErr {α : Type} : GoRes α → Bool
  | .err _ => true
  | _ => false

/-- Is a restriction parameter a `json.Number` whose exact `Int64()`
conversion fails (a non-integer literal such as `1.5`, or an integer
literal outside the `int64` range)? -/
def badNum : Value → Bool
  | .vnum n =>
      match n.int64 with
      | .ok _ => false
      | .error _ => true
  | _ => false

/-- Does a restriction parameter carry a `min` or `max` bound that is
present but fails exact integer conversion? -/
def paramHasBadBound : Value → Bool
  | .vobj mp =>
      (match lookupV mp "max" with
        | some w => badNum w
        | none => false) ||
      (match lookupV mp "min" with
        | some w => badNum w
        | none => false)
  | _ => false

theorem badNum_err (w : Value) (hb : badNum w = true) : isErr (goNumInt64 w) = true := by
  cases w with
  | vnum n =>
      cases hn : n.int64 with
      | ok i => simp [badNum, hn] at hb
      | error e => simp [goNumInt64, hn, isErr]
  | vnull => simp [badNum] at hb
  | vbool c => simp [badNum] at hb
  | vstr s => simp [badNum] at hb
  | varr l => simp [badNum] at hb
  | vobj o => simp [badNum] at hb

theorem goNumInt64_ok_of_good (w : Value) (hn : numOk (some w) = true)
    (hb : badNum w = false) : ∃ i, goNumInt64 w = .ok i := by
  cases w with
  | vnum n =>
      cases hi : n.int64 with
      | ok i => exact ⟨i, by simp [goNumInt64, hi]⟩
      | error e => simp [badNum, hi] at hb
  | vnull => simp [numOk] at hn
  | vbool c => simp [numOk] at hn
  | vstr s => simp [numOk] at hn
  | varr l => simp [numOk] at hn
  | vobj o => simp [numOk] at hn

theorem genLen_err (p : Value) (hok : paramOk p = true)
    (hbad : paramHasBadBound p = true) :
    isErr (generateStringLengthValidFunc p) = true := by
  cases p with
  | vobj mp =>
      simp only [paramOk, Bool.and_eq_true] at hok
      obtain ⟨hokx, hokn⟩ := hok
      cases hmx : lookupV mp "max" with
      | some mx =>
          rw [hmx] at hokx
          cases hmn : lookupV mp "min" with
          | some mn =>
              rw [hmn] at hokn
              have hbad2 : badNum mx = true ∨ badNum mn = true := by
                simpa only [paramHasBadBound, hmx, hmn, Bool.or_eq_true] using hbad
              by_cases hbx : badNum mx = true
              · have herr := badNum_err mx hbx
                cases hresx : goNumInt64 mx with
                | ok i => rw [hresx] at herr; simp [isErr] at herr
                | crash e => rw [hresx] at herr; simp [isErr] at herr
                | err e => simp [generateStringLengthValidFunc, hmx, hmn, hresx, isErr]
              · simp only [Bool.not_eq_true] at hbx
                have hbn : badNum mn = true := by
                  rcases hbad2 with h | h
                  · rw [hbx] at h; simp at h
                  · exact h
                obtain ⟨i, hresx⟩ := goNumInt64_ok_of_good mx hokx hbx
                have herr := badNum_err mn hbn
                cases hresn : goNumInt64 mn with
                | ok j => rw [hresn] at herr; simp [isErr] at herr
                | crash e => rw [hresn] at herr; simp [isErr] at herr
                | err e =>
                    simp [generateStringLengthValidFunc, hmx, hmn, hresx, hresn, isErr]
          | none =>
              have hbx : badNum mx = true := by
                simpa only [paramHasBadBound, hmx, hmn, Bool.or_false] using hbad
              have herr := badNum_err mx hbx
              cases hresx : goNumInt64 mx with
              | ok i => rw [hresx] at herr; simp [isErr] at herr
              | crash e => rw [hresx] at herr; simp [isErr] at herr
              | err e => simp [generateStringLengthValidFunc, hmx, hmn, hresx, isErr]
      | none =>
          cases hmn : lookupV mp "min" with
          | some mn =>
              rw [hmn] at hokn
              have hbn : badNum mn = true := by
                simpa only [paramHasBadBound, hmx, hmn, Bool.false_or] using hbad
              have herr := badNum_err mn hbn
              cases hresn : goNumInt64 mn with
              | ok j => rw [hresn] at herr; simp [isErr] at herr
              | crash e => rw [hresn] at herr; simp [isErr] at herr
              | err e => simp [generateStringLengthValidFunc, hmx, hmn, hresn, isErr]
          | none => simp [paramHasBadBound, hmx, hmn] at hbad
  | vnull => simp [paramHasBadBound] at hbad
  | vbool c => simp [paramHasBadBound] at hbad
  | vnum n => simp [paramHasBadBound] at hbad
  | vstr s => simp [paramHasBadBound] at hbad
  | varr l => simp [paramHasBadBound] at hbad

theorem genRange_err (p : Value) (hok : paramOk p = true)
    (hbad : paramHasBadBound p = true) :
    isErr (generateIntRangeValidFunc p) = true := by
  cases p with
  | vobj mp =>
      simp only [paramOk, Bool.and_eq_true] at hok
      obtain ⟨hokx, hokn⟩ := hok
      cases hmx : lookupV mp "max" with
      | some mx =>
          rw [hmx] at hokx
          cases hmn : lookupV mp "min" with
          | some mn =>
              rw [hmn] at hokn
              have hbad2 : badNum mx = true ∨ badNum mn = true := by
                simpa only [paramHasBadBound, hmx, hmn, Bool.or_eq_true] using hbad
              by_cases hbx : badNum mx = true
              · have herr := badNum_err mx hbx
                cases hresx : goNumInt64 mx with
                | ok i => rw [hresx] at herr; simp [isErr] at herr
                | crash e => rw [hresx] at herr; simp [isErr] at herr
                | err e => simp [generateIntRangeValidFunc, hmx, hmn, hresx, isErr]
              · simp only [Bool.not_eq_true] at hbx
                have hbn : badNum mn = true := by
                  rcases hbad2 with h | h
                  · rw [hbx] at h; simp at h
                  · exact h
                obtain ⟨i, hresx⟩ := goNumInt64_ok_of_good mx hokx hbx
                have herr := badNum_err mn hbn
                cases hresn : goNumInt64 mn with
                | ok j => rw [hresn] at herr; simp [isErr] at herr
                | crash e => rw [hresn] at herr; simp [isErr] at herr
                | err e =>
                    simp [generateIntRangeValidFunc, hmx, hmn, hresx, hresn, isErr]
          | none =>
              have hbx : badNum mx = true := by
                simpa only [paramHasBadBound, hmx, hmn, Bool.or_false] using hbad
              have herr := badNum_err mx hbx
              cases hresx : goNumInt64 mx with
              | ok i => rw [hresx] at herr; simp [isErr] at herr
              | crash e => rw [hresx] at herr; simp [isErr] at herr
              | err e => simp [generateIntRangeValidFunc, hmx, hmn, hresx, isErr]
      | none =>
          cases hmn : lookupV mp "min" with
          | some mn =>
              rw [hmn] at hokn
              have hbn : badNum mn = true := by
                simpa only [paramHasBadBound, hmx, hmn, Bool.false_or] using hbad
              have herr := badNum_err mn hbn
              cases hresn : goNumInt64 mn with
              | ok j => rw [hresn] at herr; simp [isErr] at herr
              | crash e => rw [hresn] at herr; simp [isErr] at herr
              | err e => simp [generateIntRangeValidFunc, hmx, hmn, hresn, isErr]
          | none => simp [paramHasBadBound, hmx, hmn] at hbad
  | vnull => simp [paramHasBadBound] at hbad
  | vbool c => simp [paramHasBadBound] at hbad
  | vnum n => simp [paramHasBadBound] at hbad
  | vstr s => simp [paramHasBadBound] at hbad
  | varr l => simp [paramHasBadBound] at hbad

theorem genStringFuncs_err (rs : List (String × Value))
    (hok : rs.all (fun p => p.1 != "length" || paramOk p.2) = true)
    (hbad : rs.any (fun p => p.1 == "length" && paramHasBadBound p.2) = true) :
    ∀ acc, isErr (genStringFuncs rs acc) = true := by
  induction rs with
  | nil => simp at hbad
  | cons p rest ih =>
      intro acc
      obtain ⟨name, restriction⟩ := p
      simp only [List.all_cons, Bool.and_eq_true] at hok
      obtain ⟨hp, hrest⟩ := hok
      simp only [List.any_cons, Bool.or_eq_true] at hbad
      by_cases hn : name = "length"
      · subst hn
        simp only [bne_self_eq_false, Bool.false_or] at hp
        by_cases hb : paramHasBadBound restriction = true
        · have herr := genLen_err restriction hp hb
          cases hres : generateStringLengthValidFunc restriction with
          | ok of => rw [hres] at herr; simp [isErr] at herr
          | crash e => rw [hres] at herr; simp [isErr] at herr
          | err e => simp [genStringFuncs, hres, isErr]
        · have hbad2 : rest.any (fun p => p.1 == "length" && paramHasBadBound p.2) = true := by
            rcases hbad with h | h
            · simp only [Bool.and_eq_true, beq_iff_eq] at h
              exact absurd h.2 hb
            · exact h
          have hc := genLen_no_crash restriction hp
          cases hres : generateStringLengthValidFunc restriction with
          | crash e => rw [hres] at hc; simp [isCrash] at hc
          | err e => simp [genStringFuncs, hres, isErr]
          | ok of =>
              cases of with
              | some f =>
                  simp only [genStringFuncs, if_pos rfl, hres]
                  exact ih hrest hbad2 _
              | none =>
                  simp only [genStringFuncs, if_pos rfl, hres]
                  exact ih hrest hbad2 _
      · have hbad2 : rest.any (fun p => p.1 == "length" && paramHasBadBound p.2) = true := by
          rcases hbad with h | h
          · simp only [Bool.and_eq_true, beq_iff_eq] at h
            exact absurd h.1 hn
          · exact h
        simp only [genStringFuncs, if_neg hn]
        exact ih hrest hbad2 _

theorem genIntFuncs_err (rs : List (String × Value))
    (hok : rs.all (fun p => p.1 != "range" || paramOk p.2) = true)
    (hbad : rs.any (fun p => p.1 == "range" && paramHasBadBound p.2) = true) :
    ∀ acc, isErr (genIntFuncs rs acc) = true := by
  induction rs with
  | nil => simp at hbad
  | cons p rest ih =>
      intro acc
      obtain ⟨name, restriction⟩ := p
      simp only [List.all_cons, Bool.and_eq_true] at hok
      obtain ⟨hp, hrest⟩ := hok
      simp only [List.any_cons, Bool.or_eq_true] at hbad
      by_cases hn : name = "range"
      · subst hn
        simp only [bne_self_eq_false, Bool.false_or] at hp
        by_cases hb : paramHasBadBound restriction = true
        · have herr := genRange_err restriction hp hb
          cases hres : generateIntRangeValidFunc restriction with
          | ok of => rw [hres] at herr; simp [isErr] at herr
          | crash e => rw [hres] at herr; simp [isErr] at herr
          | err e => simp [genIntFuncs, hres, isErr]
        · have hbad2 : rest.any (fun p => p.1 == "range" && paramHasBadBound p.2) = true := by
            rcases hbad with h | h
            · simp only [Bool.and_eq_true, beq_iff_eq] at h
              exact absurd h.2 hb
            · exact h
          have hc := genRange_no_crash restriction hp
          cases hres : generateIntRangeValidFunc restriction with
          | crash e => rw [hres] at hc; simp [isCrash] at hc
          | err e => simp [genIntFuncs, hres, isErr]
          | ok of =>
              cases of with
              | some f =>
                  simp only [genIntFuncs, if_pos rfl, hres]
                  exact ih hrest hbad2 _
              | none =>
                  simp only [genIntFuncs, if_pos rfl, hres]
                  exact ih hrest hbad2 _
      · have hbad2 : rest.any (fun p => p.1 == "range" && paramHasBadBound p.2) = true := by
          rcases hbad with h | h
          · simp only [Bool.and_eq_true, beq_iff_eq] at h
            exact absurd h.1 hn
          · exact h
        simp only [genIntFuncs, if_neg hn]
        exact ih hrest hbad2 _

/-- C1 (amended): for every String field whose restriction map contains
a `length` restriction — and every Integer field whose map contains a
`range` restriction — with a `min` or `max` parameter present as a
`json.Number` but not parseable as an exact integer (a non-integer
literal, or an integer outside the `int64` range), and whose inspected
restriction parameters are otherwise well shaped (so that compilation
reaches the integer conversion rather than panicking): compilation of
the whole field fails — `generateValidFunc` returns the parse error and
no Validator at all, rather than dropping just that restriction and
continuing with the remaining restrictions of the field; `main` logs
the returned error and continues with the other fields, and the field
then passes through unchecked at request time.  Restrictions whose
names are not inspected for the declared type (for example a `range`
restriction on a String field) are skipped without being looked at, so
their parameters never cause this abort. -/
theorem bad_number_param_aborts_whole_field (arg : Arg) (hok : argOk arg = true)
    (hbad :
      (arg.argType = 2 ∧
        arg.restrictions.any (fun p => p.1 == "length" && paramHasBadBound p.2) = true) ∨
      (arg.argType = 1 ∧
        arg.restrictions.any (fun p => p.1 == "range" && paramHasBadBound p.2) = true)) :
    isErr (generateValidFunc arg) = true ∧ isCompiled (generateValidFunc arg) = false := by
  rcases hbad with ⟨h2, hany⟩ | ⟨h1, hany⟩
  · simp only [argOk, h2, if_true, if_pos] at hok
    have herr := genStringFuncs_err arg.restrictions hok hany []
    cases hres : genStringFuncs arg.restrictions [] with
    | ok fs => rw [hres] at herr; simp [isErr] at herr
    | crash e => rw [hres] at herr; simp [isErr] at herr
    | err e =>
        constructor <;>
          simp [generateValidFunc, h2, generateStringValidFunc, hres, isErr, isCompiled]
  · have hne : ¬arg.argType = 2 := by rw [h1]; decide
    simp only [argOk] at hok
    rw [if_neg hne, if_pos h1] at hok
    have herr := genIntFuncs_err arg.restrictions hok hany []
    cases hres : genIntFuncs arg.restrictions [] with
    | ok fs => rw [hres] at herr; simp [isErr] at herr
    | crash e => rw [hres] at herr; simp [isErr] at herr
    | err e =>
        constructor <;>
          simp [generateValidFunc, h1, generateIntValidFunc, hres, isErr, isCompiled]

/-- Witness for C1 (amended): a String field whose `length` restriction
has `max: 2.5` (bad literal) and an out-of-range integer `min`, next to
another (skipped) restriction, compiles to an error with no
validator. -/
theorem bad_number_param_aborts_whole_field_witness :
    isErr (generateValidFunc ⟨"f", 2,
      [("length", Value.vobj [("max", Value.vnum (.badLit "2.5")),
                              ("min", Value.vnum (.intLit 9223372036854775808))]),
       ("other", Value.vnull)]⟩) = true ∧
    isCompiled (generateValidFunc ⟨"f", 2,
      [("length", Value.vobj [("max", Value.vnum (.badLit "2.5")),
                              ("min", Value.vnum (.intLit 9223372036854775808))]),
       ("other", Value.vnull)]⟩) = false :=
  bad_number_param_aborts_whole_field _ (by decide) (Or.inl ⟨rfl, by decide⟩)

end DynAdaptor
